import Mathlib

/-!
Verification of the offline-keystore key-custody ceremony subsystem.

The Rust source (src/lib.rs, src/main.rs, src/shares.rs) is shallowly
embedded below.  Pure string/list manipulations become Lean functions on
`List Char` / `List String`; the stateful ceremony functions
(`hsm_initialize`, `personalize`, `ca_initialize`, `ca_sign`,
`ca_sign_csrspec`) become straight-line state-passing functions
parametrised by an oracle that fixes the outcome of each fallible
external call (HSM operations, prompts, filesystem writes, the external
openssl signing engine).  Each such function returns its result together
with the list of externally visible actions it performed, in program
order, and (where relevant) the final working directory.

Rust `String` values are modelled as `List Char` where character-level
operations matter and as Lean `String` where they are only compared.
-/

namespace Oks

/-! ## Environment-variable password passing

`passwd_to_env` (src/lib.rs:248-254) prompts for a password, prepends
the fixed key-slot tag "0002" and stores the result in an environment
variable.  `passwd_from_env` (src/main.rs:507-513) reads a variable and
strips the same tag, failing when the tag is absent.  The values are
modelled as `List Char`; `str::strip_prefix` succeeds exactly when the
string starts with the pattern, i.e. when the first four characters are
the tag. -/

def authHdr : List Char := ['0', '0', '0', '2']

def passwd_to_env (p : List Char) : List Char := authHdr ++ p

def passwd_from_env (v : List Char) : Except String (List Char) :=
  if v.take 4 = authHdr then Except.ok (v.drop 4)
  else Except.error "Missing key identifier in environment variable"

/-- C10: storing a password via `passwd_to_env` produces "0002" followed by
the password; `passwd_from_env` recovers exactly the password from any
value carrying the "0002" tag and fails with an error for any value that
does not start with the tag. -/
theorem passwd_env_round_trip :
    (∀ p : List Char, passwd_to_env p = authHdr ++ p ∧
      passwd_from_env (passwd_to_env p) = Except.ok p) ∧
    (∀ v p : List Char, v = authHdr ++ p →
      passwd_from_env v = Except.ok p) ∧
    (∀ v : List Char, v.take 4 ≠ authHdr →
      ∃ e, passwd_from_env v = Except.error e) := by
  refine ⟨fun p => ⟨rfl, ?_⟩, fun v p hv => ?_, fun v hv => ?_⟩
  · have ht : (passwd_to_env p).take 4 = authHdr := rfl
    have hd : (passwd_to_env p).drop 4 = p := rfl
    simp [passwd_from_env, ht, hd]
  · subst hv
    have ht : (authHdr ++ p).take 4 = authHdr := rfl
    have hd : (authHdr ++ p).drop 4 = p := rfl
    simp [passwd_from_env, ht, hd]
  · exact ⟨"Missing key identifier in environment variable",
      by simp [passwd_from_env, hv]⟩

/-- Witness for C10 at concrete inputs. -/
theorem passwd_env_round_trip_witness :
    passwd_from_env (passwd_to_env ['p', 'w']) = Except.ok ['p', 'w'] ∧
    (['0', '0', '0', '2', 'p'] = authHdr ++ ['p'] ∧
      passwd_from_env ['0', '0', '0', '2', 'p'] = Except.ok ['p']) ∧
    (['x'].take 4 ≠ authHdr ∧
      ∃ e, passwd_from_env ['x'] = Except.error e) :=
  ⟨(passwd_env_round_trip.1 ['p', 'w']).2,
   ⟨rfl, passwd_env_round_trip.2.1 _ ['p'] rfl⟩,
   ⟨by decide, passwd_env_round_trip.2.2 ['x'] (by decide)⟩⟩

/-! ## Password confirmation loop

`get_new_passwd` (src/main.rs:250-262, same loop as src/lib.rs:751-760):
prompt for a password twice; if the two entries differ, log an error and
loop; otherwise return the (first) entry.  The sequence of prompt
results is modelled as a list consumed two entries per iteration;
`none` models the loop still waiting for further input (it never
returns a value without a matched pair). -/

def get_new_passwd : List String → Option String
  | p1 :: p2 :: rest => if p1 = p2 then some p1 else get_new_passwd rest
  | _ => none

theorem get_new_passwd_aux :
    ∀ (inputs : List String) (p : String), get_new_passwd inputs = some p →
      ∃ k, 2 * k + 1 < inputs.length ∧ inputs.getD (2 * k) "" = p ∧
        inputs.getD (2 * k + 1) "" = p ∧
        ∀ j, j < k → inputs.getD (2 * j) "" ≠ inputs.getD (2 * j + 1) "" := by
  intro inputs
  induction inputs using get_new_passwd.induct with
  | case1 p2 rest =>
    intro p h
    have hp : p2 = p := by simpa [get_new_passwd] using h
    exact ⟨0, by simp, by simpa using hp, by simpa using hp,
      fun j hj => absurd hj (Nat.not_lt_zero j)⟩
  | case2 p1 p2 rest hne ih =>
    intro p h
    simp only [get_new_passwd, if_neg hne] at h
    obtain ⟨k, hlen, h0, h1, hmis⟩ := ih p h
    refine ⟨k + 1, ?_, ?_, ?_, ?_⟩
    · simp only [List.length_cons]
      omega
    · have h2 : 2 * (k + 1) = 2 * k + 1 + 1 := by ring
      simpa [h2, List.getD_cons_succ] using h0
    · have h2 : 2 * (k + 1) + 1 = 2 * k + 1 + 1 + 1 := by ring
      simpa [h2, List.getD_cons_succ] using h1
    · intro j hj
      match j with
      | 0 => simpa using hne
      | j' + 1 =>
        have h2 : 2 * (j' + 1) = 2 * j' + 1 + 1 := by ring
        have h3 : 2 * (j' + 1) + 1 = 2 * j' + 1 + 1 + 1 := by ring
        have h4 := hmis j' (by omega)
        simpa [h2, h3, List.getD_cons_succ] using h4
  | case3 t hnc =>
    intro p h
    cases t with
    | nil => exact absurd h (by simp [get_new_passwd])
    | cons a tl =>
      cases tl with
      | nil => exact absurd h (by simp [get_new_passwd])
      | cons b tl' => exact (hnc a b tl' rfl).elim

/-- C9: the password-confirmation loop returns a value only when a
prompted pair of consecutive entries matches, the returned value is
exactly that matching entry, and every earlier pair of entries was a
mismatch (each mismatch re-prompts rather than erroring or falling back
to a default). -/
theorem passwd_confirm_loop :
    (∀ (a b : String) (rest : List String), a ≠ b →
      get_new_passwd (a :: b :: rest) = get_new_passwd rest) ∧
    (∀ (inputs : List String) (p : String), get_new_passwd inputs = some p →
      ∃ k, 2 * k + 1 < inputs.length ∧ inputs.getD (2 * k) "" = p ∧
        inputs.getD (2 * k + 1) "" = p ∧
        ∀ j, j < k → inputs.getD (2 * j) "" ≠ inputs.getD (2 * j + 1) "") :=
  ⟨fun a b rest hab => by simp [get_new_passwd, hab], get_new_passwd_aux⟩

/-- Witness for C9: two non-matching entries followed by two matching
entries return the matching value. -/
theorem passwd_confirm_loop_witness :
    get_new_passwd ["a", "b", "c", "c"] = get_new_passwd ["c", "c"] ∧
    ∃ k, 2 * k + 1 < (["a", "b", "c", "c"] : List String).length ∧
      (["a", "b", "c", "c"] : List String).getD (2 * k) "" = "c" ∧
      (["a", "b", "c", "c"] : List String).getD (2 * k + 1) "" = "c" ∧
      ∀ j, j < k →
        (["a", "b", "c", "c"] : List String).getD (2 * j) "" ≠
          (["a", "b", "c", "c"] : List String).getD (2 * j + 1) "" :=
  ⟨passwd_confirm_loop.1 "a" "b" ["c", "c"] (by decide),
   passwd_confirm_loop.2 ["a", "b", "c", "c"] "c" (by decide)⟩

/-! ## Share representation

`Share` (re-exported from the hsm module; src/shares.rs:19 imports it and
the comment at src/shares.rs:170 records "33 bytes -> 66 characters") is
a fixed 33-byte value.  Modelled as a byte list of length `SHARE_LEN`. -/

def SHARE_LEN : Nat := 33

def Share : Type := { l : List Nat // l.length = SHARE_LEN }

instance : DecidableEq Share :=
  inferInstanceAs (DecidableEq { l : List Nat // l.length = SHARE_LEN })

/-! ## Image-file (iso) share acquisition

`ShareGetter::_get_iso_share` (src/shares.rs:109-146): when the stored
glob cursor `share_globs` is `None` a fresh directory scan is created;
the next path from the cursor yields one share; when the cursor is
exhausted it is reset to `None` and the call returns `None` (`End`).
The fixed directory contents (the shares decoded from the matching
files, in discovery order) are the `dir` parameter; the cursor is the
list of not-yet-returned shares.  Mounting and reading an iso is
abstracted as returning the share directly. -/

def get_iso_share (dir : List Share) (st : Option (List Share)) :
    Option Share × Option (List Share) :=
  match st.getD dir with
  | [] => (none, none)
  | s :: rest => (some s, some rest)

/-- Outputs of `n` successive `get_share` calls starting from cursor `st`. -/
def run_iso_calls (dir : List Share) : Nat → Option (List Share) → List (Option Share)
  | 0, _ => []
  | n + 1, st =>
    let r := get_iso_share dir st
    r.1 :: run_iso_calls dir n r.2

/-- Outputs of `n` calls on a freshly constructed getter (cursor `None`,
matching `ShareGetter::new` which sets `share_globs: None`). -/
def iso_outputs (dir : List Share) (n : Nat) : List (Option Share) :=
  run_iso_calls dir n none

def sh1 : Share := ⟨List.replicate 33 1, by rfl⟩
def sh2 : Share := ⟨List.replicate 33 2, by rfl⟩
def sh3 : Share := ⟨List.replicate 33 3, by rfl⟩
def sh4 : Share := ⟨List.replicate 33 4, by rfl⟩
def sh5 : Share := ⟨List.replicate 33 5, by rfl⟩

/-- C5 counterexample: over a directory holding exactly five shares, the
seventh call (the first call after the `End` returned by the sixth) does
not return `End`: exhaustion resets the cursor and the scan restarts, so
it returns the first share again. -/
theorem iso_share_rescan_after_end :
    (iso_outputs [sh1, sh2, sh3, sh4, sh5] 7).getD 6 none = some sh1 ∧
    (iso_outputs [sh1, sh2, sh3, sh4, sh5] 7).getD 6 none ≠ none := by
  constructor
  · rfl
  · intro h
    simp [iso_outputs, run_iso_calls, get_iso_share] at h

/-- C5 amended: over a directory containing shares 1-of-5 through 5-of-5,
the first 5 calls return exactly those 5 shares in discovery order and
the 6th returns `End`; but `End` is not idempotent: returning `End`
resets the cursor, so calls 7 through 11 repeat the 5 shares in order
and call 12 returns `End` again. -/
theorem iso_share_sequence (s1 s2 s3 s4 s5 : Share) :
    iso_outputs [s1, s2, s3, s4, s5] 12 =
      [some s1, some s2, some s3, some s4, some s5, none,
       some s1, some s2, some s3, some s4, some s5, none] := rfl

/-! ## Interactive (stdin) share acquisition

`ShareGetter::_get_stdin_share` (src/shares.rs:155-246): loop reading a
line from stdin.  A read of 0 bytes (EOF) re-prompts; a read of any
byte count other than 67 (66 hex characters plus the newline) re-prompts
after a keypress; otherwise whitespace is stripped, the string is
hex-decoded (failure re-prompts), converted to a `Share` (wrong decoded
length re-prompts) and verified against the Feldman verifier (failure
re-prompts).  Only a share accepted by the verifier is returned.

The stdin line sequence is modelled as a `List (List Char)`; each loop
iteration consumes one line (the single-byte "press any key" reads that
follow a rejection are acknowledgements and are abstracted away).  An
exhausted list models a loop that is still waiting for input — the code
itself never returns `None` (src/shares.rs:153-154).  The verifier is an
arbitrary boolean predicate, matching `FeldmanVerifier::verify`. -/

def hexVal (c : Char) : Option Nat :=
  if '0' ≤ c ∧ c ≤ '9' then some (c.toNat - 48)
  else if 'a' ≤ c ∧ c ≤ 'f' then some (c.toNat - 87)
  else if 'A' ≤ c ∧ c ≤ 'F' then some (c.toNat - 55)
  else none

/-- Byte-pairwise hex decoding, as the hex crate's `decode`: fails on odd
length or any non-hex character. -/
def hexDecode : List Char → Option (List Nat)
  | [] => some []
  | [_] => none
  | c1 :: c2 :: rest =>
    match hexVal c1, hexVal c2, hexDecode rest with
    | some hi, some lo, some bs => some ((16 * hi + lo) :: bs)
    | _, _, _ => none

/-- `Share::try_from` on a decoded byte slice: succeeds exactly on length
`SHARE_LEN`. -/
def shareFromBytes (v : List Nat) : Option Share :=
  if h : v.length = SHARE_LEN then some ⟨v, h⟩ else none

/-- Processing of one entered line by the body of the `_get_stdin_share`
loop: `some s` when this iteration returns share `s`, `none` when it
re-prompts. -/
def stdin_line_accepted (verify : Share → Bool) (line : List Char) : Option Share :=
  if line.length = 67 then
    match hexDecode (line.filter (fun c => !c.isWhitespace)) with
    | none => none
    | some bytes =>
      match shareFromBytes bytes with
      | none => none
      | some sh => if verify sh then some sh else none
  else none

def get_stdin_share (verify : Share → Bool) : List (List Char) → Option Share
  | [] => none
  | line :: rest =>
    match stdin_line_accepted verify line with
    | some sh => some sh
    | none => get_stdin_share verify rest

theorem stdin_line_accepted_verified (verify : Share → Bool) (line : List Char)
    (sh : Share) (h : stdin_line_accepted verify line = some sh) :
    verify sh = true := by
  unfold stdin_line_accepted at h
  split at h
  · split at h
    · exact absurd h (by simp)
    · split at h
      · exact absurd h (by simp)
      · split at h
        · rename_i hv
          injection h with h2
          exact h2 ▸ hv
        · exact absurd h (by simp)
  · exact absurd h (by simp)

/-- C4: the interactive share acquisition never propagates an error and
never returns `End` on rejected input: every line that fails the length
check, hex decoding, the `Share` conversion or verification merely moves
the loop to the next line; the call produces a share only when the
verifier accepts it, and as soon as an acceptable line is reached it
returns that line's share. -/
theorem stdin_share_only_verified :
    (∀ (verify : Share → Bool) (line : List Char) (rest : List (List Char)),
      stdin_line_accepted verify line = none →
      get_stdin_share verify (line :: rest) = get_stdin_share verify rest) ∧
    (∀ (verify : Share → Bool) (inputs : List (List Char)) (sh : Share),
      get_stdin_share verify inputs = some sh → verify sh = true) ∧
    (∀ (verify : Share → Bool) (pre : List (List Char)) (line : List Char)
      (rest : List (List Char)) (sh : Share),
      (∀ l ∈ pre, stdin_line_accepted verify l = none) →
      stdin_line_accepted verify line = some sh →
      get_stdin_share verify (pre ++ line :: rest) = some sh) := by
  refine ⟨fun verify line rest h => by simp [get_stdin_share, h], ?_, ?_⟩
  · intro verify inputs
    induction inputs with
    | nil => intro sh h; exact absurd h (by simp [get_stdin_share])
    | cons line rest ih =>
      intro sh h
      rcases hl : stdin_line_accepted verify line with _ | sh'
      · rw [get_stdin_share, hl] at h
        exact ih sh h
      · rw [get_stdin_share, hl] at h
        cases h
        exact stdin_line_accepted_verified verify line sh hl
  · intro verify pre line rest sh hpre hline
    induction pre with
    | nil => simp [get_stdin_share, hline]
    | cons l pre' ih =>
      have hl : stdin_line_accepted verify l = none := hpre l (by simp)
      have hpre' : ∀ l' ∈ pre', stdin_line_accepted verify l' = none :=
        fun l' hl' => hpre l' (by simp [hl'])
      simp only [List.cons_append, get_stdin_share, hl]
      exact ih hpre'

def notHexLine : List Char := ['n', 'o', 't', '-', 'h', 'e', 'x', '\n']

def shortHexLine : List Char := ['a', 'b', 'c', 'd', '\n']

def goodLine : List Char := List.replicate 66 '0' ++ ['\n']

def zeroShare : Share := ⟨List.replicate 33 0, by rfl⟩

/-- Witness for C4, following the spec's scenario: a non-hex entry, then
a correctly-formatted but wrong-length hex entry, then a valid verified
share; the first two re-prompt and the call returns the third. -/
theorem stdin_share_only_verified_witness :
    (∀ l ∈ [notHexLine, shortHexLine],
      stdin_line_accepted (fun _ => true) l = none) ∧
    stdin_line_accepted (fun _ => true) goodLine = some zeroShare ∧
    get_stdin_share (fun _ => true)
      ([notHexLine, shortHexLine] ++ goodLine :: []) = some zeroShare ∧
    (fun (_ : Share) => true) zeroShare = true :=
  have h1 : ∀ l ∈ [notHexLine, shortHexLine],
      stdin_line_accepted (fun _ => true) l = none := by decide
  have h2 : stdin_line_accepted (fun _ => true) goodLine = some zeroShare := by
    decide
  ⟨h1, h2,
   stdin_share_only_verified.2.2 (fun _ => true) [notHexLine, shortHexLine]
     goodLine [] zeroShare h1 h2,
   stdin_share_only_verified.2.1 (fun _ => true)
     ([notHexLine, shortHexLine] ++ goodLine :: []) zeroShare
     (stdin_share_only_verified.2.2 (fun _ => true) [notHexLine, shortHexLine]
       goodLine [] zeroShare h1 h2)⟩

/-! ## Key specifications and purposes

`Purpose` lives in the config module (declared by src/lib.rs:30-32 but
its file is not part of src/).  Modelled from the spec: the purposes the
spec names are the three CA-eligible values `ProductionCodeSigningCA`,
`DevelopmentCodeSigningCA`, `Identity` and the two leaf values
`ProductionCodeSigning`, `DevelopmentCodeSigning` that the v3 extension
sections of the generated openssl.cnf (src/lib.rs:206-236) correspond
to.  `KeySpec` keeps only the fields the modelled control flow
consults. -/

inductive Purpose
  | ProductionCodeSigningCA
  | DevelopmentCodeSigningCA
  | Identity
  | ProductionCodeSigning
  | DevelopmentCodeSigning
deriving DecidableEq

/-- The error enum `HsmError` (src/lib.rs:52-68). -/
inductive HsmErr
  | BadSpecDirectory
  | BadDomain
  | BadLabel
  | BadPurpose
  | CertGenFail
  | SelfCertGenFail
  | Version
deriving DecidableEq

/-- Result error of a modelled operation.  `io` stands for any error
propagated with `?` that is not one of the `HsmError` variants (I/O,
JSON parsing, prompt failure, device errors); `assertFail` models a
panicking `assert_eq!`. -/
inductive Err
  | io
  | hsm (e : HsmErr)
  | assertFail
deriving DecidableEq

structure KeySpec where
  id : Nat
  label : String
  purpose : Purpose
deriving DecidableEq

structure CsrSpec where
  label : String
  csr : String
deriving DecidableEq

/-- Externally visible actions of the ceremony functions, in program
order.  `runEngine d` is an invocation of the external openssl signing
engine while the process working directory is `d`; `allocSecret` /
`zeroizeBuf` track the lifetime of a buffer holding secret material. -/
inductive Act
  | readFile (name : String)
  | promptPasswd
  | prompt2
  | setEnv
  | createDir (name : String)
  | writeFile (name : String)
  | setCwd (dir : String)
  | spawnConnector
  | killConnector
  | runEngine (cwd : String)
  | copyFile (name : String)
  | moveToOut
  | hsmCall (name : String)
  | allocSecret (name : String)
  | zeroizeBuf (name : String)
  | splitShares
  | stdinWait
deriving DecidableEq

/-- Outcome of one external signing-engine invocation: clean exit,
non-zero exit status, or an I/O error from `Command::output` itself. -/
inductive EngineOutcome
  | success
  | failStatus
  | ioErr
deriving DecidableEq

/-! ## CSR signing: `ca_sign_csrspec` (src/lib.rs:456-557)

Reads the CsrSpec, reads the CA's stored KeySpec, maps the CA purpose to
the leaf profile, changes directory into the CA dir, writes the CSR to a
temp file, invokes `openssl ca`, and restores the working directory only
after a successful invocation.  `fs::canonicalize` and
`std::env::set_current_dir` are modelled as succeeding; the fallible
spec reads, the CSR write and the engine invocation are oracle
outcomes. -/

/-- The purpose match of `ca_sign_csrspec` (src/lib.rs:485-490). -/
def leaf_purpose : Purpose → Except HsmErr Purpose
  | .ProductionCodeSigningCA => .ok .ProductionCodeSigning
  | .DevelopmentCodeSigningCA => .ok .DevelopmentCodeSigning
  | .Identity => .ok .Identity
  | _ => .error .BadPurpose

structure CsrSignOracle where
  csrSpec : Option CsrSpec
  keySpec : Option KeySpec
  writeCsrOk : Bool
  engine : EngineOutcome

/-- Model of `ca_sign_csrspec`: result, final working directory, action
trace.  `cwd0` is the working directory at entry; the CA directory is
identified by the key spec's label. -/
def ca_sign_csrspec (o : CsrSignOracle) (cwd0 : String) :
    Except Err Unit × String × List Act :=
  match o.csrSpec with
  | none => (.error .io, cwd0, [.readFile "csrspec"])
  | some _ =>
    match o.keySpec with
    | none => (.error .io, cwd0, [.readFile "csrspec", .readFile "key.spec"])
    | some ks =>
      let t0 : List Act := [.readFile "csrspec", .readFile "key.spec"]
      match leaf_purpose ks.purpose with
      | .error e => (.error (.hsm e), cwd0, t0)
      | .ok _ =>
        let caDir := ks.label
        let t1 := t0 ++ [.setCwd caDir]
        if o.writeCsrOk then
          let t2 := t1 ++ [.writeFile "tmp.csr.pem"]
          match o.engine with
          | .ioErr => (.error .io, caDir, t2 ++ [.runEngine caDir])
          | .failStatus =>
            (.error (.hsm .CertGenFail), caDir, t2 ++ [.runEngine caDir])
          | .success =>
            (.ok (), cwd0, t2 ++ [.runEngine caDir, .setCwd cwd0])
        else (.error .io, caDir, t1 ++ [.writeFile "tmp.csr.pem"])

/-! ## CA bootstrap: `ca_initialize` (src/lib.rs:256-389)

Reads the KeySpec, rejects non-CA purposes, prompts for the HSM
password, creates and enters the CA directory, writes the key spec copy
and the `openssl ca` layout (`bootstrap_ca`, src/lib.rs:561-600), spawns
the connector, runs `openssl req` and `openssl ca -selfsign`, kills the
connector, copies the certificate out and restores the working
directory.  A non-zero engine status kills the connector and returns
`SelfCertGenFail` without restoring the directory; an I/O error from
`Command::output` propagates without even killing the connector. -/

structure CaInitOracle where
  keySpec : Option KeySpec
  passwdOk : Bool
  req : EngineOutcome
  selfsign : EngineOutcome

/-- Filesystem layout written by `bootstrap_ca` (src/lib.rs:561-600). -/
def bootstrap_ca_acts : List Act :=
  [.createDir "crl", .createDir "newcerts", .createDir "private",
   .writeFile "index.txt", .writeFile "serial", .writeFile "openssl.cnf"]

def ca_init (o : CaInitOracle) (cwd0 : String) :
    Except Err Unit × String × List Act :=
  match o.keySpec with
  | none => (.error .io, cwd0, [.readFile "keyspec"])
  | some ks =>
    let t0 : List Act := [.readFile "keyspec"]
    match ks.purpose with
    | .ProductionCodeSigning => (.error (.hsm .BadPurpose), cwd0, t0)
    | .DevelopmentCodeSigning => (.error (.hsm .BadPurpose), cwd0, t0)
    | _ =>
      if o.passwdOk then
        let caDir := ks.label
        let t1 := t0 ++ [.promptPasswd, .setEnv, .createDir caDir,
          .setCwd caDir, .writeFile "key.spec"] ++ bootstrap_ca_acts ++
          [.spawnConnector]
        match o.req with
        | .ioErr => (.error .io, caDir, t1 ++ [.runEngine caDir])
        | .failStatus =>
          (.error (.hsm .SelfCertGenFail), caDir,
            t1 ++ [.runEngine caDir, .killConnector])
        | .success =>
          let t2 := t1 ++ [.runEngine caDir]
          match o.selfsign with
          | .ioErr => (.error .io, caDir, t2 ++ [.runEngine caDir])
          | .failStatus =>
            (.error (.hsm .SelfCertGenFail), caDir,
              t2 ++ [.runEngine caDir, .killConnector])
          | .success =>
            (.ok (), cwd0,
              t2 ++ [.runEngine caDir, .killConnector,
                .copyFile "ca.cert.pem", .setCwd cwd0, .moveToOut])
      else (.error .io, cwd0, t0 ++ [.promptPasswd])

/-! ## Batch CSR signing: `ca_sign` (src/lib.rs:415-454)

Canonicalizes the spec path and collects the CsrSpec files, spawns the
connector, prompts for the password (`passwd_to_env`, after the spawn),
then signs each spec; an error from a spec kills the connector before
propagating, and the connector is killed after a successful batch.
A prompt failure propagates with `?` before any kill. -/

structure CaSignOracle where
  canonOk : Bool
  passwdOk : Bool
  specs : List CsrSignOracle

def ca_sign_loop (cwd : String) (tr : List Act) :
    List CsrSignOracle → Except Err Unit × String × List Act
  | [] => (.ok (), cwd, tr ++ [.killConnector])
  | s :: rest =>
    match ca_sign_csrspec s cwd with
    | (.ok _, cwd2, tr2) => ca_sign_loop cwd2 (tr ++ tr2) rest
    | (.error e, cwd2, tr2) => (.error e, cwd2, tr ++ tr2 ++ [.killConnector])

def ca_sign (o : CaSignOracle) (cwd0 : String) :
    Except Err Unit × String × List Act :=
  if o.canonOk then
    if o.passwdOk then
      ca_sign_loop cwd0 [.spawnConnector, .promptPasswd, .setEnv] o.specs
    else (.error .io, cwd0, [.spawnConnector, .promptPasswd])
  else (.error .io, cwd0, [])

/-- C6: the CA purpose is mapped to the leaf profile exactly as
ProductionCodeSigningCA to ProductionCodeSigning,
DevelopmentCodeSigningCA to DevelopmentCodeSigning and Identity to
Identity; every other purpose makes `ca_sign_csrspec` fail with
BadPurpose, and on that path the signing engine is never invoked. -/
theorem csr_purpose_map :
    leaf_purpose .ProductionCodeSigningCA = .ok .ProductionCodeSigning ∧
    leaf_purpose .DevelopmentCodeSigningCA = .ok .DevelopmentCodeSigning ∧
    leaf_purpose .Identity = .ok .Identity ∧
    (∀ p : Purpose, p ≠ .ProductionCodeSigningCA →
      p ≠ .DevelopmentCodeSigningCA → p ≠ .Identity →
      leaf_purpose p = .error .BadPurpose) ∧
    (∀ (o : CsrSignOracle) (cwd0 : String) (c : CsrSpec) (ks : KeySpec),
      o.csrSpec = some c → o.keySpec = some ks →
      leaf_purpose ks.purpose = .error .BadPurpose →
      (ca_sign_csrspec o cwd0).1 = .error (.hsm .BadPurpose) ∧
      ∀ d, Act.runEngine d ∉ (ca_sign_csrspec o cwd0).2.2) := by
  refine ⟨rfl, rfl, rfl, ?_, ?_⟩
  · intro p h1 h2 h3
    cases p with
    | ProductionCodeSigningCA => exact absurd rfl h1
    | DevelopmentCodeSigningCA => exact absurd rfl h2
    | Identity => exact absurd rfl h3
    | ProductionCodeSigning => rfl
    | DevelopmentCodeSigning => rfl
  · intro o cwd0 c ks h1 h2 h3
    constructor
    · simp [ca_sign_csrspec, h1, h2, h3]
    · intro d
      simp [ca_sign_csrspec, h1, h2, h3]

/-- Witness for C6 at a concrete oracle whose CA key has the leaf
purpose ProductionCodeSigning. -/
theorem csr_purpose_map_witness :
    (ca_sign_csrspec
        ⟨some ⟨"lbl", "csr"⟩, some ⟨1, "lbl", .ProductionCodeSigning⟩,
          true, .success⟩ "orig").1 = .error (.hsm .BadPurpose) ∧
    ∀ d, Act.runEngine d ∉
      (ca_sign_csrspec
        ⟨some ⟨"lbl", "csr"⟩, some ⟨1, "lbl", .ProductionCodeSigning⟩,
          true, .success⟩ "orig").2.2 :=
  csr_purpose_map.2.2.2.2 _ "orig" ⟨"lbl", "csr"⟩
    ⟨1, "lbl", .ProductionCodeSigning⟩ rfl rfl rfl

/-- Actions that create or modify filesystem state. -/
def isFsMutation : Act → Bool
  | .createDir _ => true
  | .writeFile _ => true
  | .copyFile _ => true
  | .moveToOut => true
  | _ => false

/-- C7: CA bootstrap with a KeySpec whose purpose is not CA-eligible
fails with BadPurpose, and on that path no file or directory has been
created: the trace contains no filesystem mutation (and in particular no
connector spawn or engine invocation). -/
theorem ca_init_bad_purpose_no_files :
    ∀ (o : CaInitOracle) (cwd0 : String) (ks : KeySpec),
      o.keySpec = some ks →
      (ks.purpose = .ProductionCodeSigning ∨
        ks.purpose = .DevelopmentCodeSigning) →
      (ca_init o cwd0).1 = .error (.hsm .BadPurpose) ∧
      ∀ a ∈ (ca_init o cwd0).2.2, isFsMutation a = false := by
  intro o cwd0 ks h1 h2
  rcases h2 with h2 | h2 <;>
    exact ⟨by simp [ca_init, h1, h2],
      by intro a ha; simp [ca_init, h1, h2] at ha; simp [ha, isFsMutation]⟩

/-- Witness for C7 at a concrete non-CA-eligible KeySpec. -/
theorem ca_init_bad_purpose_no_files_witness :
    (ca_init ⟨some ⟨1, "lbl", .DevelopmentCodeSigning⟩, true, .success,
        .success⟩ "orig").1 = .error (.hsm .BadPurpose) ∧
    ∀ a ∈ (ca_init ⟨some ⟨1, "lbl", .DevelopmentCodeSigning⟩, true,
        .success, .success⟩ "orig").2.2, isFsMutation a = false :=
  ca_init_bad_purpose_no_files _ "orig" ⟨1, "lbl", .DevelopmentCodeSigning⟩
    rfl (Or.inr rfl)

/-- C8 counterexample: when the first engine invocation of CA bootstrap
exits with non-zero status, `ca_initialize` returns SelfCertGenFail with
the working directory still set to the CA directory, not restored to the
original one. -/
theorem cwd_not_restored_on_certgenfail :
    (ca_init ⟨some ⟨1, "ca-lbl", .Identity⟩, true, .failStatus, .success⟩
        "orig").1 = .error (.hsm .SelfCertGenFail) ∧
    (ca_init ⟨some ⟨1, "ca-lbl", .Identity⟩, true, .failStatus, .success⟩
        "orig").2.1 = "ca-lbl" ∧
    "ca-lbl" ≠ "orig" :=
  ⟨rfl, rfl, by decide⟩

/-- C8 amended: every engine invocation of `ca_initialize` and
`ca_sign_csrspec` runs with the working directory switched to the CA
directory, and the original directory is restored on successful return;
but on the SelfCertGenFail/CertGenFail error returns (and the other
error returns after the switch) the working directory remains the CA
directory. -/
theorem cwd_discipline :
    (∀ (o : CaInitOracle) (cwd0 : String) (ks : KeySpec),
      o.keySpec = some ks →
      (∀ d, Act.runEngine d ∈ (ca_init o cwd0).2.2 → d = ks.label) ∧
      ((ca_init o cwd0).1 = .ok () → (ca_init o cwd0).2.1 = cwd0) ∧
      ((ca_init o cwd0).1 = .error (.hsm .SelfCertGenFail) →
        (ca_init o cwd0).2.1 = ks.label)) ∧
    (∀ (o : CsrSignOracle) (cwd0 : String) (ks : KeySpec),
      o.keySpec = some ks →
      (∀ d, Act.runEngine d ∈ (ca_sign_csrspec o cwd0).2.2 → d = ks.label) ∧
      ((ca_sign_csrspec o cwd0).1 = .ok () →
        (ca_sign_csrspec o cwd0).2.1 = cwd0) ∧
      ((ca_sign_csrspec o cwd0).1 = .error (.hsm .CertGenFail) →
        (ca_sign_csrspec o cwd0).2.1 = ks.label)) := by
  constructor
  · intro o cwd0 ks h1
    rcases o with ⟨os, pw, req, ss⟩
    cases h1
    rcases ks with ⟨kid, klabel, kpurpose⟩
    cases kpurpose <;> cases pw <;> cases req <;> cases ss <;>
      refine ⟨?_, ?_, ?_⟩ <;>
      simp [ca_init, bootstrap_ca_acts]
  · intro o cwd0 ks h1
    rcases o with ⟨cs, os, w, eng⟩
    cases h1
    rcases cs with _ | c
    · rcases ks with ⟨kid, klabel, kpurpose⟩
      cases kpurpose <;> cases w <;> cases eng <;>
        refine ⟨?_, ?_, ?_⟩ <;>
        simp [ca_sign_csrspec, leaf_purpose]
    · rcases ks with ⟨kid, klabel, kpurpose⟩
      cases kpurpose <;> cases w <;> cases eng <;>
        refine ⟨?_, ?_, ?_⟩ <;>
        simp [ca_sign_csrspec, leaf_purpose]

/-- Witness for C8 (amended) at a successful bootstrap run and an
engine-failure signing run. -/
theorem cwd_discipline_witness :
    ((∀ d, Act.runEngine d ∈
        (ca_init ⟨some ⟨1, "ca-lbl", .Identity⟩, true, .success, .success⟩
          "orig").2.2 → d = "ca-lbl") ∧
      ((ca_init ⟨some ⟨1, "ca-lbl", .Identity⟩, true, .success, .success⟩
          "orig").1 = .ok () →
        (ca_init ⟨some ⟨1, "ca-lbl", .Identity⟩, true, .success, .success⟩
          "orig").2.1 = "orig") ∧
      ((ca_init ⟨some ⟨1, "ca-lbl", .Identity⟩, true, .success, .success⟩
          "orig").1 = .error (.hsm .SelfCertGenFail) →
        (ca_init ⟨some ⟨1, "ca-lbl", .Identity⟩, true, .success, .success⟩
          "orig").2.1 = "ca-lbl")) ∧
    ((∀ d, Act.runEngine d ∈
        (ca_sign_csrspec ⟨some ⟨"ca-lbl", "csr"⟩,
          some ⟨1, "ca-lbl", .Identity⟩, true, .failStatus⟩ "orig").2.2 →
          d = "ca-lbl") ∧
      ((ca_sign_csrspec ⟨some ⟨"ca-lbl", "csr"⟩,
          some ⟨1, "ca-lbl", .Identity⟩, true, .failStatus⟩ "orig").1 =
          .ok () →
        (ca_sign_csrspec ⟨some ⟨"ca-lbl", "csr"⟩,
          some ⟨1, "ca-lbl", .Identity⟩, true, .failStatus⟩ "orig").2.1 =
          "orig") ∧
      ((ca_sign_csrspec ⟨some ⟨"ca-lbl", "csr"⟩,
          some ⟨1, "ca-lbl", .Identity⟩, true, .failStatus⟩ "orig").1 =
          .error (.hsm .CertGenFail) →
        (ca_sign_csrspec ⟨some ⟨"ca-lbl", "csr"⟩,
          some ⟨1, "ca-lbl", .Identity⟩, true, .failStatus⟩ "orig").2.1 =
          "ca-lbl")) :=
  ⟨cwd_discipline.1 _ "orig" ⟨1, "ca-lbl", .Identity⟩ rfl,
   cwd_discipline.2 _ "orig" ⟨1, "ca-lbl", .Identity⟩ rfl⟩

/-- C3: the claim that the connector process is terminated on every exit
path is contradicted by the code on two paths, evaluated here: in
`ca_sign` a password-prompt failure after the spawn propagates with `?`
and never kills the connector, and in `ca_initialize` an I/O error from
`Command::output` propagates before the kill call.  In both runs the
function returns an error with the connector spawned and never
killed. -/
theorem connector_leak_on_error_paths :
    ((ca_sign ⟨true, false, []⟩ "orig").1 = .error .io ∧
      Act.spawnConnector ∈ (ca_sign ⟨true, false, []⟩ "orig").2.2 ∧
      Act.killConnector ∉ (ca_sign ⟨true, false, []⟩ "orig").2.2) ∧
    ((ca_init ⟨some ⟨1, "ca-lbl", .Identity⟩, true, .ioErr, .success⟩
        "orig").1 = .error .io ∧
      Act.spawnConnector ∈
        (ca_init ⟨some ⟨1, "ca-lbl", .Identity⟩, true, .ioErr, .success⟩
          "orig").2.2 ∧
      Act.killConnector ∉
        (ca_init ⟨some ⟨1, "ca-lbl", .Identity⟩, true, .ioErr, .success⟩
          "orig").2.2) :=
  ⟨⟨rfl, by decide, by decide⟩, ⟨rfl, by decide, by decide⟩⟩

/-! ## HSM personalization: `personalize` (src/lib.rs:744-810)

Password confirmation loop (each iteration prompts twice and allocates
two password buffers; a matching pair zeroizes only the second copy),
then put_authentication_key, delete_object on the default credential,
export_wrapped, write of the wrapped backup, get_opaque for the
attestation certificate and its write; `password.zeroize()` runs only
after all of these have succeeded.  Every fallible call is an oracle
outcome; an error return leaves all `allocSecret` buffers without a
matching `zeroizeBuf`. -/

structure PersonalizeOracle where
  pairs : List (String × String)
  putAuthOk : Bool
  deleteOk : Bool
  exportOk : Bool
  writeWrapOk : Bool
  readAttestOk : Bool
  writeAttestOk : Bool

/-- The prompt loop of `personalize` (src/lib.rs:751-760).  A mismatched
pair leaves both buffers to be dropped without zeroization and loops; a
matched pair zeroizes the confirmation copy only. -/
def personalize_loop : List (String × String) → List Act → Option String × List Act
  | [], tr => (none, tr)
  | (p1, p2) :: rest, tr =>
    let tr2 := tr ++ [.prompt2, .allocSecret "password",
      .allocSecret "password2"]
    if p1 = p2 then (some p1, tr2 ++ [.zeroizeBuf "password2"])
    else personalize_loop rest tr2

def personalize (o : PersonalizeOracle) : Except Err Unit × List Act :=
  match personalize_loop o.pairs [] with
  | (none, tr) => (.error .io, tr)
  | (some _, tr) =>
    let tr := tr ++ [.hsmCall "put_authentication_key"]
    if o.putAuthOk then
      let tr := tr ++ [.hsmCall "delete_object"]
      if o.deleteOk then
        let tr := tr ++ [.hsmCall "export_wrapped"]
        if o.exportOk then
          let tr := tr ++ [.writeFile "admin.wrap.json"]
          if o.writeWrapOk then
            let tr := tr ++ [.hsmCall "get_opaque_cert"]
            if o.readAttestOk then
              let tr := tr ++ [.writeFile "hsm.attest.cert.pem"]
              if o.writeAttestOk then (.ok (), tr ++ [.zeroizeBuf "password"])
              else (.error .io, tr)
            else (.error .io, tr)
          else (.error .io, tr)
        else (.error .io, tr)
      else (.error .io, tr)
    else (.error .io, tr)

/-! ## HSM initialization: `hsm_initialize` (src/lib.rs:653-732)

Draws 32 wrap-key bytes from the HSM PRNG (the buffer is allocated and —
per the TODO on src/lib.rs:659 — never zeroized), installs them as the
wrap key, asserts the returned id is WRAP_ID, runs `personalize`, splits
the wrap key into 5 shares (a second never-zeroized secret buffer), and
prints each share to the print device between operator
acknowledgements. -/

structure HsmInitOracle where
  prngOk : Bool
  putWrapOk : Bool
  retId : Nat
  pers : PersonalizeOracle
  splitOk : Bool
  openPrintOk : Bool

/-- Per-share print sequence of the loop at src/lib.rs:715-730: prompt
and wait, write the share to the print device, wait again. -/
def shareWrites : Nat → List Act
  | 0 => []
  | n + 1 => [.stdinWait, .writeFile "print_dev", .stdinWait] ++ shareWrites n

def hsm_init (o : HsmInitOracle) : Except Err Unit × List Act :=
  let tr : List Act := [.hsmCall "get_pseudo_random"]
  if o.prngOk then
    let tr := tr ++ [.allocSecret "wrap_key", .hsmCall "put_wrap_key"]
    if o.putWrapOk then
      if o.retId = 1 then
        match personalize o.pers with
        | (.error e, tr2) => (.error e, tr ++ tr2)
        | (.ok _, tr2) =>
          let tr3 := tr ++ tr2 ++ [.splitShares]
          if o.splitOk then
            let tr4 := tr3 ++ [.allocSecret "shares", .stdinWait]
            if o.openPrintOk then (.ok (), tr4 ++ shareWrites 5)
            else (.error .io, tr4)
          else (.error .io, tr3)
      else (.error .assertFail, tr)
    else (.error .io, tr)
  else (.error .io, tr)

/-- All-success run of `hsm_initialize`: one mismatched password pair
followed by a matched one, every external call succeeding. -/
def c2AllOk : HsmInitOracle :=
  ⟨true, true, 1, ⟨[("a", "b"), ("p", "p")], true, true, true, true, true,
    true⟩, true, true⟩

/-- `personalize` run whose put_authentication_key call fails. -/
def c2AuthFail : PersonalizeOracle :=
  ⟨[("p", "p")], false, true, true, true, true, true⟩

/-- C2: the claim that every secret buffer is zeroized after last use on
every exit path is contradicted by the code, evaluated here on two runs:
the fully successful `hsm_initialize` run allocates the wrap-key bytes
and the shares and never zeroizes either (and of the two password
buffers allocated by the confirmation loop only one is zeroized), and
the `personalize` run whose put_authentication_key call fails returns
the error with the password buffer never zeroized. -/
theorem hsm_init_missing_zeroize :
    ((hsm_init c2AllOk).1 = .ok () ∧
      Act.allocSecret "wrap_key" ∈ (hsm_init c2AllOk).2 ∧
      Act.zeroizeBuf "wrap_key" ∉ (hsm_init c2AllOk).2 ∧
      Act.allocSecret "shares" ∈ (hsm_init c2AllOk).2 ∧
      Act.zeroizeBuf "shares" ∉ (hsm_init c2AllOk).2 ∧
      (hsm_init c2AllOk).2.count (Act.allocSecret "password") = 2 ∧
      (hsm_init c2AllOk).2.count (Act.zeroizeBuf "password") = 1) ∧
    ((personalize c2AuthFail).1 = .error .io ∧
      Act.allocSecret "password" ∈ (personalize c2AuthFail).2 ∧
      Act.zeroizeBuf "password" ∉ (personalize c2AuthFail).2) :=
  ⟨⟨rfl, by decide, by decide, by decide, by decide, by decide, by decide⟩,
   ⟨rfl, by decide, by decide⟩⟩

/-! ## Threshold secret splitting and recovery

`hsm_initialize` splits the wrap key with
`rusty_secrets::generate_shares(THRESHOLD, SHARES, &wrap_key)`
(src/lib.rs:689-695) and `restore` recovers it with
`rusty_secrets::recover_secret(shares)` (src/lib.rs:617-621); the
splitting primitive itself is an external crate the spec treats as a
black box.  Modelled from the spec: a Shamir threshold scheme — the
secret is the constant term of a polynomial of degree below the
threshold m whose remaining m-1 coefficients are the sampled randomness,
share i (for i = 1..n) is the point (i, q(i)), and recovery is Lagrange
interpolation of the chosen shares evaluated at zero.  The field is
GF(257), the prime field containing a secret byte; a multi-byte secret
is split componentwise, so the round trip of one field element is the
round trip of the secret.  The threshold is m = cs.length + 1 where
`cs` is the list of random non-constant coefficients. -/

abbrev GF : Type := ZMod 257

instance : Fact (Nat.Prime 257) := ⟨by norm_num⟩

/-- Value of share `x` for secret `s` and random coefficients `cs`:
the sampled polynomial evaluated at `x`. -/
def shareY (s : GF) (cs : List GF) (x : GF) : GF :=
  s + ∑ i ∈ Finset.range cs.length, cs.getD i 0 * x ^ (i + 1)

/-- `split s cs n`: the n shares (i, q(i)) for i = 1..n. -/
def split (s : GF) (cs : List GF) (n : Nat) : List (GF × GF) :=
  (List.range n).map
    (fun i => (((i + 1 : Nat) : GF), shareY s cs ((i + 1 : Nat) : GF)))

/-- Recovery of the secret from a set of shares: Lagrange interpolation
through the share points, evaluated at zero. -/
def recombine (shares : Finset (GF × GF)) : GF :=
  ∑ p ∈ shares, p.2 * ∏ q ∈ shares.erase p, q.1 / (q.1 - p.1)

/-- The sampled polynomial with constant term `s` and higher
coefficients `cs`. -/
noncomputable def secretPoly (s : GF) (cs : List GF) : Polynomial GF :=
  Polynomial.C s + ∑ i ∈ Finset.range cs.length,
    Polynomial.C (cs.getD i 0) * Polynomial.X ^ (i + 1)

theorem div_symm_neg (a b : GF) : b / (b - a) = (a - b)⁻¹ * (0 - b) := by
  rw [zero_sub, div_eq_mul_inv, show b - a = -(a - b) by ring, inv_neg]
  ring

/-- Interpolation of the values of a low-degree polynomial on a node
set, evaluated at zero, recovers the polynomial's value at zero. -/
theorem recombine_sum_eq_eval_zero {S : Finset ℕ} {v : ℕ → GF}
    (hv : Set.InjOn v S) (q : Polynomial GF)
    (hq : q.degree < S.card) :
    ∑ i ∈ S, q.eval (v i) * ∏ j ∈ S.erase i, v j / (v j - v i) =
      q.eval 0 := by
  conv_rhs => rw [Lagrange.eq_interpolate hv hq]
  rw [Lagrange.interpolate_apply, Polynomial.eval_finset_sum]
  refine Finset.sum_congr rfl fun i hi => ?_
  rw [Polynomial.eval_mul, Polynomial.eval_C]
  congr 1
  simp only [Lagrange.basis]
  rw [Polynomial.eval_prod]
  refine Finset.prod_congr rfl fun j hj => ?_
  simp only [Lagrange.basisDivisor]
  rw [Polynomial.eval_mul, Polynomial.eval_C, Polynomial.eval_sub,
    Polynomial.eval_X, Polynomial.eval_C]
  exact div_symm_neg (v i) (v j)

theorem secretPoly_eval (s : GF) (cs : List GF) (x : GF) :
    (secretPoly s cs).eval x = shareY s cs x := by
  unfold secretPoly shareY
  rw [Polynomial.eval_add, Polynomial.eval_C, Polynomial.eval_finset_sum]
  congr 1
  refine Finset.sum_congr rfl fun i _ => ?_
  rw [Polynomial.eval_mul, Polynomial.eval_C, Polynomial.eval_pow,
    Polynomial.eval_X]

theorem secretPoly_eval_zero (s : GF) (cs : List GF) :
    (secretPoly s cs).eval 0 = s := by
  rw [secretPoly_eval]
  unfold shareY
  simp

theorem secretPoly_degree_lt (s : GF) (cs : List GF) :
    (secretPoly s cs).degree < ((cs.length + 1 : Nat) : WithBot ℕ) := by
  unfold secretPoly
  apply lt_of_le_of_lt (Polynomial.degree_add_le _ _)
  rw [max_lt_iff]
  constructor
  · refine lt_of_le_of_lt Polynomial.degree_C_le ?_
    have h0 : (0 : ℕ) < cs.length + 1 := Nat.succ_pos _
    exact_mod_cast h0
  · apply lt_of_le_of_lt (Polynomial.degree_sum_le _ _)
    rw [Finset.sup_lt_iff (WithBot.bot_lt_coe _)]
    intro i hi
    apply lt_of_le_of_lt (Polynomial.degree_C_mul_X_pow_le _ _)
    have h1 : i + 1 < cs.length + 1 :=
      Nat.succ_lt_succ (Finset.mem_range.mp hi)
    exact_mod_cast h1

/-- The share abscissae 1..n are distinct in GF(257) when n stays below
the field size. -/
theorem natCast_succ_injOn (n : Nat) (hn : n ≤ 256) :
    Set.InjOn (fun i : ℕ => ((i + 1 : Nat) : GF)) (Finset.range n) := by
  intro i hi j hj hij
  simp only [Finset.coe_range, Set.mem_Iio] at hi hj
  have hi' : i + 1 < 257 := by omega
  have hj' : j + 1 < 257 := by omega
  have hv := congrArg ZMod.val hij
  rw [ZMod.val_natCast_of_lt hi', ZMod.val_natCast_of_lt hj'] at hv
  omega

theorem image_erase_of_injOn {α β : Type} [DecidableEq α] [DecidableEq β]
    {f : α → β} {S : Finset α} (hf : Set.InjOn f S) (i : α) (hi : i ∈ S) :
    (S.image f).erase (f i) = (S.erase i).image f := by
  ext b
  simp only [Finset.mem_erase, Finset.mem_image]
  constructor
  · rintro ⟨hne, j, hj, rfl⟩
    exact ⟨j, ⟨fun h => hne (h ▸ rfl), hj⟩, rfl⟩
  · rintro ⟨j, ⟨hji, hj⟩, rfl⟩
    exact ⟨fun h => hji (hf hj hi h), j, hj, rfl⟩

/-- C1: for every secret, every choice of randomness fixing the
threshold m = cs.length + 1, and every n with m ≤ n (and n within the
field bound), recombining any subset of exactly m of the n shares
produced by `split` yields the original secret — the round trip is the
identity and gives the same value on every valid m-subset. -/
theorem split_recombine_round_trip (s : GF) (cs : List GF) (n : Nat)
    (hn : n ≤ 256) (hmn : cs.length + 1 ≤ n) (T : Finset (GF × GF))
    (hsub : T ⊆ (split s cs n).toFinset)
    (hcard : T.card = cs.length + 1) :
    recombine T = s := by
  classical
  set v : ℕ → GF := fun i => ((i + 1 : Nat) : GF) with hvdef
  set f : ℕ → GF × GF := fun i => (v i, shareY s cs (v i)) with hfdef
  have hvinj : Set.InjOn v (Finset.range n) := natCast_succ_injOn n hn
  have hfinj : Set.InjOn f (Finset.range n) := by
    intro i hi j hj hij
    exact hvinj hi hj (congrArg Prod.fst hij)
  have hsplit_mem : ∀ p ∈ (split s cs n).toFinset,
      ∃ i ∈ Finset.range n, f i = p := by
    intro p hp
    rw [List.mem_toFinset, split, List.mem_map] at hp
    obtain ⟨i, hi, hip⟩ := hp
    exact ⟨i, Finset.mem_range.mpr (List.mem_range.mp hi), hip⟩
  set S : Finset ℕ := (Finset.range n).filter (fun i => f i ∈ T) with hSdef
  have hSsub : S ⊆ Finset.range n := Finset.filter_subset _ _
  have hvS : Set.InjOn v S :=
    hvinj.mono (by exact_mod_cast Finset.coe_subset.mpr hSsub)
  have hfS : Set.InjOn f S :=
    hfinj.mono (by exact_mod_cast Finset.coe_subset.mpr hSsub)
  have hTS : T = S.image f := by
    ext p
    constructor
    · intro hp
      obtain ⟨i, hi, hip⟩ := hsplit_mem p (hsub hp)
      exact Finset.mem_image.mpr
        ⟨i, Finset.mem_filter.mpr ⟨hi, hip ▸ hp⟩, hip⟩
    · intro hp
      obtain ⟨i, hiS, hip⟩ := Finset.mem_image.mp hp
      exact hip ▸ (Finset.mem_filter.mp hiS).2
  have hScard : S.card = cs.length + 1 := by
    have h1 : (S.image f).card = S.card := Finset.card_image_of_injOn hfS
    rw [← hcard, hTS, h1]
  have hsum : recombine T =
      ∑ i ∈ S, shareY s cs (v i) * ∏ j ∈ S.erase i, v j / (v j - v i) := by
    rw [hTS, recombine]
    rw [Finset.sum_image (fun x hx y hy h => hfS hx hy h)]
    refine Finset.sum_congr rfl fun i hi => ?_
    rw [image_erase_of_injOn hfS i hi]
    rw [Finset.prod_image (fun x hx y hy h =>
      hfS (Finset.mem_of_mem_erase hx) (Finset.mem_of_mem_erase hy) h)]
  rw [hsum]
  have heval : ∀ i ∈ S, shareY s cs (v i) = (secretPoly s cs).eval (v i) :=
    fun i _ => (secretPoly_eval s cs (v i)).symm
  rw [Finset.sum_congr rfl fun i hi => by rw [heval i hi]]
  rw [recombine_sum_eq_eval_zero hvS (secretPoly s cs)
    (by rw [hScard]; exact secretPoly_degree_lt s cs)]
  exact secretPoly_eval_zero s cs

/-- Concrete 3-of-5 sharing of the secret 42 with randomness [7, 13],
taking the first three shares. -/
def c1T : Finset (GF × GF) := ((split 42 [7, 13] 5).take 3).toFinset

/-- Witness for C1: the hypotheses hold at the concrete instance and the
first three of the five shares recombine to the secret. -/
theorem split_recombine_round_trip_witness :
    (5 ≤ 256 ∧ ([7, 13] : List GF).length + 1 ≤ 5 ∧
      c1T ⊆ (split 42 [7, 13] 5).toFinset ∧
      c1T.card = ([7, 13] : List GF).length + 1) ∧
    recombine c1T = 42 :=
  ⟨⟨by decide, by decide, by decide, by decide⟩,
   split_recombine_round_trip 42 [7, 13] 5 (by decide) (by decide) c1T
     (by decide) (by decide)⟩

end Oks
